import Mathlib

/-!
Verification development for the BIP32 hierarchical-deterministic-wallet
module (`btclib/bip32.py`).

The embedding models Python byte strings as lists of `Fin 256`, Python
integers as `Int` (or `Nat` where the source value is always a count or a
path index), and Python exceptions as `Except BErr`.  External
collaborators of the module — the secp256k1 curve operations, HMAC-SHA512,
HASH160, Base58Check, and the per-network version-byte registry, none of
which live in the verified source tree — are modelled from the spec as an
explicit configuration record `Config` of abstract functions; the
properties the real primitives satisfy (digest lengths, SEC-compressed
point shape, scalar-multiplication being a group homomorphism, registry
table alignment) are collected in `Config.WF`.
-/

namespace BIP32

/-- A Python byte: an integer in `[0, 256)`. -/
abbrev Byte := Fin 256

/-- A Python byte string. -/
abbrev Bytes := List Byte

/-- Python `int.from_bytes(b, byteorder="big", signed=False)`. -/
def beBytesToNat (b : Bytes) : Nat :=
  b.foldl (fun acc x => acc * 256 + x.val) 0

/-- Python `v.to_bytes(len, byteorder="big", signed=False)` (the source only
calls it on values that fit, where this truncating form agrees with it). -/
def natToBytesBE (len : Nat) (v : Nat) : Bytes :=
  match len with
  | 0 => []
  | l + 1 => natToBytesBE l (v / 256) ++ [⟨v % 256, Nat.mod_lt _ (by omega)⟩]

theorem natToBytesBE_length (len v : Nat) : (natToBytesBE len v).length = len := by
  induction len generalizing v with
  | zero => rfl
  | succ l ih => simp [natToBytesBE, ih]

theorem beBytesToNat_append_single (xs : Bytes) (x : Byte) :
    beBytesToNat (xs ++ [x]) = beBytesToNat xs * 256 + x.val := by
  simp [beBytesToNat, List.foldl_append]

theorem beBytesToNat_lt (b : Bytes) : beBytesToNat b < 256 ^ b.length := by
  induction b using List.reverseRecOn with
  | nil => simp [beBytesToNat]
  | append_singleton xs x ih =>
    rw [beBytesToNat_append_single]
    have hx : x.val < 256 := x.isLt
    have : beBytesToNat xs + 1 ≤ 256 ^ xs.length := ih
    calc beBytesToNat xs * 256 + x.val
        < (beBytesToNat xs + 1) * 256 := by omega
      _ ≤ 256 ^ xs.length * 256 := by
          exact Nat.mul_le_mul_right 256 ih
      _ = 256 ^ (xs ++ [x]).length := by
          simp [List.length_append, Nat.pow_succ]

theorem beBytesToNat_natToBytesBE (len v : Nat) (h : v < 256 ^ len) :
    beBytesToNat (natToBytesBE len v) = v := by
  induction len generalizing v with
  | zero =>
    simp at h
    simp [natToBytesBE, beBytesToNat, h]
  | succ l ih =>
    rw [natToBytesBE, beBytesToNat_append_single]
    have hdiv : v / 256 < 256 ^ l := by
      rw [Nat.div_lt_iff_lt_mul (by omega)]
      calc v < 256 ^ (l + 1) := h
        _ = 256 ^ l * 256 := by rw [Nat.pow_succ]
    rw [ih _ hdiv]
    show v / 256 * 256 + v % 256 = v
    omega

theorem natToBytesBE_beBytesToNat (b : Bytes) (len : Nat) (h : b.length = len) :
    natToBytesBE len (beBytesToNat b) = b := by
  induction b using List.reverseRecOn generalizing len with
  | nil =>
    subst h; rfl
  | append_singleton xs x ih =>
    subst h
    rw [beBytesToNat_append_single]
    have hlen : (xs ++ [x]).length = xs.length + 1 := by simp
    rw [hlen, natToBytesBE]
    have hx : x.val < 256 := x.isLt
    have hdiv : (beBytesToNat xs * 256 + x.val) / 256 = beBytesToNat xs := by
      omega
    have hmod : (beBytesToNat xs * 256 + x.val) % 256 = x.val := by
      omega
    rw [hdiv]
    rw [ih xs.length rfl]
    congr 1
    simp [hmod]

/-- The distinct failure sites of `btclib/bip32.py` (the source raises
`BTClibValueError` with a distinct message at each of these places). -/
inductive BErr where
  | invalidVersionLength
  | invalidDepth
  | invalidParentFingerprintLength
  | invalidIndex
  | invalidChainCodeLength
  | invalidKeyLength
  | invalidPrvPrefix
  | prvKeyOutOfRange
  | invalidPubPrefix
  | invalidPubKey
  | unknownExtendedKeyVersion
  | zeroDepthNonzeroParentFingerprint
  | zeroDepthNonzeroIndex
  | invalidDecodedLength
  | seedTooFewBits
  | seedTooManyBits
  | invalidOctetsLength
  | unknownPrvKeyVersion
  | notAPrivateKey
  | notAPublicKey
  | versionNotFound
  | versionIndexOutOfRange
  | hardenedDerivationFromPublicKey
  | finalDepthGreaterThan255
  | wrongDepths
  | wrongParentFingerprint
  | hardenedChildDerivation
  | b58DecodeFailure
  deriving DecidableEq, Repr

/-- Modelled from the spec: the external collaborators of `bip32.py` that are
not part of the verified source tree — the secp256k1 curve service (`mult`,
`add`, `INF`, order `n`, compressed-point codec, `y`-recovery used by
validation), the hash/HMAC primitives, Base58Check, and the version-byte
registry tables `_XPRV_VERSIONS_ALL` / `_XPUB_VERSIONS_ALL` loaded from the
per-network JSON data.  `P` is the abstract type of curve points. -/
structure Config (P : Type) where
  n : Nat
  xprv_versions_all : List Bytes
  xpub_versions_all : List Bytes
  hmac_sha512 : Bytes → Bytes → Bytes
  hash160 : Bytes → Bytes
  mult : Nat → P
  add : P → P → P
  INF : P
  bytes_from_point : P → Bytes
  point_from_octets : Bytes → P
  y : Nat → Option Nat
  b58encode : Bytes → Bytes
  b58decode : Bytes → Except BErr Bytes

/-- Modelled from the spec: properties of the external collaborators that the
real primitives satisfy — digest lengths, the group order being nontrivial
and below `2^256`, the public/private registry tables being index-aligned,
SEC compressed points being 33 bytes starting with `0x02`/`0x03`, the
compressed-point codec round-tripping, and scalar multiplication being a
homomorphism from integers mod `n` to the curve group. -/
structure Config.WF {P : Type} (cfg : Config P) : Prop where
  one_lt_n : 1 < cfg.n
  n_lt : cfg.n < 2 ^ 256
  len_eq : cfg.xpub_versions_all.length = cfg.xprv_versions_all.length
  hmac_len : ∀ k d, (cfg.hmac_sha512 k d).length = 64
  hash160_len : ∀ b, (cfg.hash160 b).length = 20
  bfp_len : ∀ p, (cfg.bytes_from_point p).length = 33
  bfp_head : ∀ p, (cfg.bytes_from_point p).headD 0 = 2 ∨
    (cfg.bytes_from_point p).headD 0 = 3
  pfo_bfp : ∀ p, cfg.point_from_octets (cfg.bytes_from_point p) = p
  add_mult : ∀ a b, cfg.add (cfg.mult a) (cfg.mult b) = cfg.mult ((a + b) % cfg.n)

/-- Python `list.index`, returning `none` where Python raises `ValueError`. -/
def idxOf? {α : Type} [DecidableEq α] (a : α) : List α → Option Nat
  | [] => none
  | x :: xs => if x = a then some 0 else (idxOf? a xs).map (· + 1)

/-- The `BIP32KeyData` dataclass: a BIP32 extended key.  `depth` and `index`
are Python ints (possibly out of range until validated), the other fields
byte strings. -/
structure BIP32KeyData where
  version : Bytes
  depth : Int
  parent_fingerprint : Bytes
  index : Int
  chain_code : Bytes
  key : Bytes
  deriving DecidableEq, Repr

/-- Python method `BIP32KeyData.is_hardened`. -/
def BIP32KeyData.is_hardened (k : BIP32KeyData) : Prop :=
  0x80000000 ≤ k.index

/-- The depth-0 constraint checks at the end of `assert_valid`. -/
def zero_depth_checks (k : BIP32KeyData) : Except BErr Unit :=
  if k.depth = 0 then
    if k.parent_fingerprint ≠ [0, 0, 0, 0] then
      .error .zeroDepthNonzeroParentFingerprint
    else if k.index ≠ 0 then .error .zeroDepthNonzeroIndex
    else .ok ()
  else .ok ()

/-- Python method `BIP32KeyData.assert_valid`: the full structural/semantic validation run
on construction, serialization and deserialization.  The `isinstance` type
checks of the source are vacuous in the embedding (the fields are typed). -/
def assert_valid {P : Type} (cfg : Config P) (k : BIP32KeyData) :
    Except BErr Unit :=
  if k.version.length ≠ 4 then .error .invalidVersionLength
  else if ¬ (0 ≤ k.depth ∧ k.depth ≤ 255) then .error .invalidDepth
  else if k.parent_fingerprint.length ≠ 4 then
    .error .invalidParentFingerprintLength
  else if ¬ (0 ≤ k.index ∧ k.index ≤ 0xFFFFFFFF) then .error .invalidIndex
  else if k.chain_code.length ≠ 32 then .error .invalidChainCodeLength
  else if k.key.length ≠ 33 then .error .invalidKeyLength
  else if k.version ∈ cfg.xprv_versions_all then
    if k.key.headD 0 ≠ 0 then .error .invalidPrvPrefix
    else if ¬ (0 < beBytesToNat k.key.tail ∧ beBytesToNat k.key.tail < cfg.n)
      then .error .prvKeyOutOfRange
    else zero_depth_checks k
  else if k.version ∈ cfg.xpub_versions_all then
    if ¬ (k.key.headD 0 = 2 ∨ k.key.headD 0 = 3) then .error .invalidPubPrefix
    else if (cfg.y (beBytesToNat k.key.tail)).isNone then .error .invalidPubKey
    else zero_depth_checks k
  else .error .unknownExtendedKeyVersion

/-- The constructor `BIP32KeyData(...)` with `check_validity=True`
(`__post_init__` runs `assert_valid`). -/
def mk_checked {P : Type} (cfg : Config P) (k : BIP32KeyData) :
    Except BErr BIP32KeyData :=
  match assert_valid cfg k with
  | .error e => .error e
  | .ok _ => .ok k

/-- The 78-byte wire image built by `BIP32KeyData.serialize`. -/
def serialize_bytes (k : BIP32KeyData) : Bytes :=
  k.version ++ natToBytesBE 1 k.depth.toNat ++ k.parent_fingerprint
    ++ natToBytesBE 4 k.index.toNat ++ k.chain_code ++ k.key

/-- The trailing `assert_valid` call serialization and deserialization make
when `assert_valid=True` is passed. -/
def run_validation {P : Type} (cfg : Config P) (av : Bool) (k : BIP32KeyData) :
    Except BErr Unit :=
  if av then assert_valid cfg k else .ok ()

/-- Python method `BIP32KeyData.serialize`. -/
def serialize {P : Type} (cfg : Config P) (k : BIP32KeyData) (av : Bool) :
    Except BErr Bytes :=
  match run_validation cfg av k with
  | .error e => .error e
  | .ok _ => .ok (serialize_bytes k)

/-- The sequential stream reads of `BIP32KeyData.deserialize`: each field is
read off the remainder of the stream (a short stream yields short reads,
exactly as `BytesIO.read` does). -/
def parse_key_data (b : Bytes) : BIP32KeyData where
  version := b.take 4
  depth := (beBytesToNat ((b.drop 4).take 1) : Int)
  parent_fingerprint := ((b.drop 4).drop 1).take 4
  index := (beBytesToNat ((((b.drop 4).drop 1).drop 4).take 4) : Int)
  chain_code := ((((b.drop 4).drop 1).drop 4).drop 4).take 32
  key := (((((b.drop 4).drop 1).drop 4).drop 4).drop 32).take 33

/-- Python method `BIP32KeyData.deserialize`. -/
def deserialize {P : Type} (cfg : Config P) (b : Bytes) (av : Bool) :
    Except BErr BIP32KeyData :=
  match run_validation cfg av (parse_key_data b) with
  | .error e => .error e
  | .ok _ => .ok (parse_key_data b)

/-- The constant `_EXPECTED_DECODED_LENGHT` (the source spells it so). -/
def _EXPECTED_DECODED_LENGHT : Nat := 78

/-- Python method `BIP32KeyData.b58encode`. -/
def b58encode_key {P : Type} (cfg : Config P) (k : BIP32KeyData) (av : Bool) :
    Except BErr Bytes :=
  match serialize cfg k av with
  | .error e => .error e
  | .ok b => .ok (cfg.b58encode b)

/-- Python method `BIP32KeyData.b58decode` (byte-string input, so the `str.strip` branch
does not arise). -/
def b58decode_key {P : Type} (cfg : Config P) (s : Bytes) (av : Bool) :
    Except BErr BIP32KeyData :=
  match cfg.b58decode s with
  | .error e => .error e
  | .ok d =>
    if av ∧ d.length ≠ _EXPECTED_DECODED_LENGHT then .error .invalidDecodedLength
    else deserialize cfg d av

/-- The dataclass `_ExtendedBIP32KeyData`: the transient working state of a multi-level
derivation — the key-data fields plus the cached scalar `q` (private keys)
or cached point `Q` (public keys). -/
structure _ExtendedBIP32KeyData (P : Type) extends BIP32KeyData where
  q : Nat
  Q : P

/-- The function `__ckd`: the single-step child-key-derivation transition.  The source
mutates `xkey` in place; the embedding returns the new state.  `index` is a
parsed path index (an unsigned 32-bit integer by the parser's contract). -/
def __ckd {P : Type} (cfg : Config P) (xkey : _ExtendedBIP32KeyData P)
    (index : Nat) : Except BErr (_ExtendedBIP32KeyData P) :=
  if xkey.key.headD 0 = 0 then
    -- private key
    let Q_bytes := cfg.bytes_from_point (cfg.mult xkey.q)
    let hmac_ :=
      if 0x80000000 ≤ index then
        -- hardened derivation
        cfg.hmac_sha512 xkey.chain_code (xkey.key ++ natToBytesBE 4 index)
      else
        -- normal derivation
        cfg.hmac_sha512 xkey.chain_code (Q_bytes ++ natToBytesBE 4 index)
    let offset := beBytesToNat (hmac_.take 32)
    let q' := (xkey.q + offset) % cfg.n
    .ok { version := xkey.version,
          depth := xkey.depth + 1,
          parent_fingerprint := (cfg.hash160 Q_bytes).take 4,
          index := (index : Int),
          chain_code := hmac_.drop 32,
          key := 0 :: natToBytesBE 32 q',
          q := q',
          Q := cfg.INF }
  else
    -- public key
    if 0x80000000 ≤ index then .error .hardenedDerivationFromPublicKey
    else
      let hmac_ :=
        cfg.hmac_sha512 xkey.chain_code (xkey.key ++ natToBytesBE 4 index)
      let offset := beBytesToNat (hmac_.take 32)
      let Q' := cfg.add xkey.Q (cfg.mult offset)
      .ok { version := xkey.version,
            depth := xkey.depth + 1,
            parent_fingerprint := (cfg.hash160 xkey.key).take 4,
            index := (index : Int),
            chain_code := hmac_.drop 32,
            key := cfg.bytes_from_point Q',
            q := 0,
            Q := Q' }

/-- The working state `_derive` builds from its input key before stepping. -/
def init_state {P : Type} (cfg : Config P) (xkey : BIP32KeyData) :
    _ExtendedBIP32KeyData P :=
  let is_prv := xkey.key.headD 0 = 0
  { version := xkey.version,
    depth := xkey.depth,
    parent_fingerprint := xkey.parent_fingerprint,
    index := xkey.index,
    chain_code := xkey.chain_code,
    key := xkey.key,
    q := if is_prv then beBytesToNat xkey.key.tail else 0,
    Q := if is_prv then cfg.INF else cfg.point_from_octets xkey.key }

/-- The function `_derive` on an already-decoded key and an already-parsed path (the
Base58 decoding of textual keys and the path parser are external to the
verified tree; `forced_version`, `None` on every path the claims exercise,
is omitted). -/
def _derive {P : Type} (cfg : Config P) (xkey : BIP32KeyData)
    (indexes : List Nat) : Except BErr BIP32KeyData :=
  if 255 < xkey.depth + indexes.length then .error .finalDepthGreaterThan255
  else
    match indexes.foldlM (__ckd cfg) (init_state cfg xkey) with
    | .error e => .error e
    | .ok s => .ok s.toBIP32KeyData

/-- The function `_xpub_from_xprv`: neutered derivation on an already-decoded key. -/
def _xpub_from_xprv {P : Type} (cfg : Config P) (xprv : BIP32KeyData) :
    Except BErr BIP32KeyData :=
  if xprv.key.headD 0 ≠ 0 then .error .notAPrivateKey
  else
    match idxOf? xprv.version cfg.xprv_versions_all with
    | none => .error .versionNotFound
    | some i =>
      match cfg.xpub_versions_all[i]? with
      | none => .error .versionIndexOutOfRange
      | some v =>
        let q := beBytesToNat xprv.key.tail
        .ok { xprv with version := v,
                        key := cfg.bytes_from_point (cfg.mult q) }

/-- The function `crack_prv_key` on already-decoded keys. -/
def crack_prv_key {P : Type} (cfg : Config P) (p c : BIP32KeyData) :
    Except BErr BIP32KeyData :=
  if ¬ (p.key.headD 0 = 2 ∨ p.key.headD 0 = 3) then .error .notAPublicKey
  else if c.key.headD 0 ≠ 0 then .error .notAPrivateKey
  -- check depth
  else if c.depth ≠ p.depth + 1 then .error .wrongDepths
  -- check fingerprint
  else if c.parent_fingerprint ≠ (cfg.hash160 p.key).take 4 then
    .error .wrongParentFingerprint
  else if 0x80000000 ≤ c.index then .error .hardenedChildDerivation
  else
    let hmac_ :=
      cfg.hmac_sha512 p.chain_code (p.key ++ natToBytesBE 4 c.index.toNat)
    let child_q := beBytesToNat c.key.tail
    let offset := beBytesToNat (hmac_.take 32)
    let parent_q := (((child_q : Int) - (offset : Int)) % (cfg.n : Int)).toNat
    .ok { p with version := c.version,
                 key := 0 :: natToBytesBE 32 parent_q }

/-- The byte string `b"Bitcoin seed"`. -/
def bitcoin_seed : Bytes :=
  [0x42, 0x69, 0x74, 0x63, 0x6f, 0x69, 0x6e, 0x20, 0x73, 0x65, 0x65, 0x64]

/-- The function `_rootxprv_from_seed`: master key construction from raw seed bytes.  The
final `BIP32KeyData(...)` call validates the constructed key. -/
def _rootxprv_from_seed {P : Type} (cfg : Config P) (seed : Bytes)
    (version : Bytes) : Except BErr BIP32KeyData :=
  let bitlenght := seed.length * 8
  if bitlenght < 128 then .error .seedTooFewBits
  else if 512 < bitlenght then .error .seedTooManyBits
  else
    let hmac_ := cfg.hmac_sha512 bitcoin_seed seed
    let k : Bytes := 0 :: hmac_.take 32
    -- bytes_from_octets(version, 4)
    if version.length ≠ 4 then .error .invalidOctetsLength
    else if version ∉ cfg.xprv_versions_all then .error .unknownPrvKeyVersion
    else
      mk_checked cfg
        { version := version,
          depth := 0,
          parent_fingerprint := [0, 0, 0, 0],
          index := 0,
          chain_code := hmac_.drop 32,
          key := k }

/-- A small concrete configuration used to instantiate the theorems: the
curve group is the integers mod 5, the digests are fixed values of the right
lengths, and the registry holds one private and one public version tag. -/
def cfgW : Config (Fin 5) where
  n := 5
  xprv_versions_all := [[0, 0, 0, 0]]
  xpub_versions_all := [[1, 1, 1, 1]]
  hmac_sha512 := fun _ _ => natToBytesBE 32 3 ++ natToBytesBE 32 7
  hash160 := fun _ => natToBytesBE 20 0
  mult := fun a => ⟨a % 5, Nat.mod_lt _ (by omega)⟩
  add := fun a b => a + b
  INF := 0
  bytes_from_point := fun p => 2 :: natToBytesBE 32 p.val
  point_from_octets := fun b => ⟨beBytesToNat b.tail % 5, Nat.mod_lt _ (by omega)⟩
  y := fun _ => some 0
  b58encode := id
  b58decode := fun b => .ok b

theorem cfgW_wf : cfgW.WF where
  one_lt_n := by decide
  n_lt := by norm_num [cfgW]
  len_eq := rfl
  hmac_len := fun k d => by simp [cfgW, natToBytesBE_length]
  hash160_len := fun b => by simp [cfgW, natToBytesBE_length]
  bfp_len := fun p => by simp [cfgW, natToBytesBE_length]
  bfp_head := fun p => Or.inl rfl
  pfo_bfp := fun p => by
    apply Fin.ext
    show beBytesToNat (natToBytesBE 32 p.val) % 5 = p.val
    rw [beBytesToNat_natToBytesBE 32 p.val (lt_trans p.isLt (by norm_num))]
    exact Nat.mod_eq_of_lt p.isLt
  add_mult := fun a b => by
    apply Fin.ext
    show ((⟨a % 5, _⟩ : Fin 5) + ⟨b % 5, _⟩).val = (a + b) % 5 % 5
    simp only [Fin.add_def]
    omega

/-- A concrete valid private extended key over `cfgW` (scalar 1). -/
def keyW : BIP32KeyData where
  version := [0, 0, 0, 0]
  depth := 0
  parent_fingerprint := [0, 0, 0, 0]
  index := 0
  chain_code := List.replicate 32 0
  key := 0 :: natToBytesBE 32 1

end BIP32

deriving instance DecidableEq for Except

namespace BIP32

theorem _xpub_from_xprv_err {P : Type} (cfg : Config P) (k : BIP32KeyData)
    (h : k.key.headD 0 ≠ 0) :
    _xpub_from_xprv cfg k = .error .notAPrivateKey := by
  unfold _xpub_from_xprv
  rw [if_pos h]

theorem _xpub_from_xprv_ok {P : Type} (cfg : Config P) (k : BIP32KeyData)
    (h0 : k.key.headD 0 = 0) (j : Nat) (v : Bytes)
    (hj : idxOf? k.version cfg.xprv_versions_all = some j)
    (hv : cfg.xpub_versions_all[j]? = some v) :
    _xpub_from_xprv cfg k =
      .ok { k with version := v,
                   key := cfg.bytes_from_point
                     (cfg.mult (beBytesToNat k.key.tail)) } := by
  unfold _xpub_from_xprv
  rw [if_neg (not_not_intro h0)]
  simp only [hj, hv]

/-- Claim C8: neutering is a pure key-kind projection.  For an input whose
key byte 0 is not `0x00`, `_xpub_from_xprv` fails with the not-a-private-key
error; for a private extended key whose version sits at position `j` of the
private version table, it returns the input with only the version (replaced
by the index-aligned entry of the public version table) and the key material
(replaced by the compressed public point of the scalar) changed — depth,
index, parent fingerprint and chain code are untouched. -/
theorem neutering_projection_frame {P : Type} (cfg : Config P) (k : BIP32KeyData) :
    (k.key.headD 0 ≠ 0 → _xpub_from_xprv cfg k = .error .notAPrivateKey)
    ∧ (k.key.headD 0 = 0 → ∀ j v, idxOf? k.version cfg.xprv_versions_all = some j →
        cfg.xpub_versions_all[j]? = some v →
        _xpub_from_xprv cfg k =
          .ok { k with version := v,
                       key := cfg.bytes_from_point
                         (cfg.mult (beBytesToNat k.key.tail)) }) := by
  constructor
  · intro h
    exact _xpub_from_xprv_err cfg k h
  · intro h0 j v hj hv
    exact _xpub_from_xprv_ok cfg k h0 j v hj hv

theorem neutering_projection_frame_witness :
    keyW.key.headD 0 = 0 ∧
    _xpub_from_xprv cfgW keyW =
      .ok { keyW with version := [1, 1, 1, 1],
                      key := cfgW.bytes_from_point
                        (cfgW.mult (beBytesToNat keyW.key.tail)) } :=
  ⟨by decide,
   (neutering_projection_frame cfgW keyW).2 (by decide) 0 [1, 1, 1, 1]
     (by decide) (by decide)⟩

/-- Every field `deserialize` reads lies within the first 78 bytes of the
stream, so the parse only depends on that prefix. -/
theorem parse_key_data_take_78 (b : Bytes) :
    parse_key_data (b.take 78) = parse_key_data b := by
  simp only [parse_key_data, List.drop_take, List.take_take, List.drop_drop]
  norm_num

theorem deserialize_take_78 {P : Type} (cfg : Config P) (b : Bytes) (av : Bool) :
    deserialize cfg b av = deserialize cfg (b.take 78) av := by
  unfold deserialize
  rw [parse_key_data_take_78]

/-- The conjunction of conditions `assert_valid` checks, phrased as the spec
states them (section-3 invariants). -/
def SpecValidKey {P : Type} (cfg : Config P) (k : BIP32KeyData) : Prop :=
  k.version.length = 4 ∧ 0 ≤ k.depth ∧ k.depth ≤ 255 ∧
  k.parent_fingerprint.length = 4 ∧ 0 ≤ k.index ∧ k.index ≤ 0xFFFFFFFF ∧
  k.chain_code.length = 32 ∧ k.key.length = 33 ∧
  ((k.version ∈ cfg.xprv_versions_all ∧ k.key.headD 0 = 0 ∧
    0 < beBytesToNat k.key.tail ∧ beBytesToNat k.key.tail < cfg.n) ∨
   (k.version ∉ cfg.xprv_versions_all ∧ k.version ∈ cfg.xpub_versions_all ∧
    (k.key.headD 0 = 2 ∨ k.key.headD 0 = 3) ∧
    (cfg.y (beBytesToNat k.key.tail)).isSome)) ∧
  (k.depth = 0 → k.parent_fingerprint = [0, 0, 0, 0] ∧ k.index = 0)

theorem zero_depth_checks_ok_iff (k : BIP32KeyData) :
    zero_depth_checks k = .ok () ↔
      (k.depth = 0 → k.parent_fingerprint = [0, 0, 0, 0] ∧ k.index = 0) := by
  unfold zero_depth_checks
  split_ifs with w1 w2 w3
  · exact iff_of_false (by simp) (fun hs => w2 (hs w1).1)
  · exact iff_of_false (by simp) (fun hs => w3 (hs w1).2)
  · exact iff_of_true rfl (fun _ => ⟨not_not.mp w2, not_not.mp w3⟩)
  · exact iff_of_true rfl (fun hd => absurd hd w1)

set_option maxHeartbeats 1000000 in
theorem assert_valid_ok_iff {P : Type} (cfg : Config P) (k : BIP32KeyData) :
    assert_valid cfg k = .ok () ↔ SpecValidKey cfg k := by
  unfold assert_valid SpecValidKey
  by_cases h1 : k.version.length ≠ 4
  · rw [if_pos h1]
    exact iff_of_false (by simp) (fun hs => h1 hs.1)
  rw [if_neg h1]
  by_cases h2 : ¬ (0 ≤ k.depth ∧ k.depth ≤ 255)
  · rw [if_pos h2]
    exact iff_of_false (by simp) (fun hs => h2 ⟨hs.2.1, hs.2.2.1⟩)
  rw [if_neg h2]
  by_cases h3 : k.parent_fingerprint.length ≠ 4
  · rw [if_pos h3]
    exact iff_of_false (by simp) (fun hs => h3 hs.2.2.2.1)
  rw [if_neg h3]
  by_cases h4 : ¬ (0 ≤ k.index ∧ k.index ≤ 0xFFFFFFFF)
  · rw [if_pos h4]
    exact iff_of_false (by simp) (fun hs => h4 ⟨hs.2.2.2.2.1, hs.2.2.2.2.2.1⟩)
  rw [if_neg h4]
  by_cases h5 : k.chain_code.length ≠ 32
  · rw [if_pos h5]
    exact iff_of_false (by simp) (fun hs => h5 hs.2.2.2.2.2.2.1)
  rw [if_neg h5]
  by_cases h6 : k.key.length ≠ 33
  · rw [if_pos h6]
    exact iff_of_false (by simp) (fun hs => h6 hs.2.2.2.2.2.2.2.1)
  rw [if_neg h6]
  by_cases h7 : k.version ∈ cfg.xprv_versions_all
  · rw [if_pos h7]
    by_cases h8 : k.key.headD 0 ≠ 0
    · rw [if_pos h8]
      refine iff_of_false (by simp) (fun hs => ?_)
      rcases hs.2.2.2.2.2.2.2.2.1 with hb | hb
      · exact h8 hb.2.1
      · exact hb.1 h7
    rw [if_neg h8]
    by_cases h9 : ¬ (0 < beBytesToNat k.key.tail ∧ beBytesToNat k.key.tail < cfg.n)
    · rw [if_pos h9]
      refine iff_of_false (by simp) (fun hs => ?_)
      rcases hs.2.2.2.2.2.2.2.2.1 with hb | hb
      · exact h9 ⟨hb.2.2.1, hb.2.2.2⟩
      · exact hb.1 h7
    rw [if_neg h9]
    rw [zero_depth_checks_ok_iff]
    constructor
    · intro hz
      obtain ⟨hd0, hd1⟩ := not_not.mp h2
      obtain ⟨hi0, hi1⟩ := not_not.mp h4
      obtain ⟨hq0, hq1⟩ := not_not.mp h9
      exact ⟨not_not.mp h1, hd0, hd1, not_not.mp h3, hi0, hi1, not_not.mp h5,
        not_not.mp h6, Or.inl ⟨h7, not_not.mp h8, hq0, hq1⟩, hz⟩
    · intro hs
      exact hs.2.2.2.2.2.2.2.2.2
  rw [if_neg h7]
  by_cases h10 : k.version ∈ cfg.xpub_versions_all
  · rw [if_pos h10]
    by_cases h11 : ¬ (k.key.headD 0 = 2 ∨ k.key.headD 0 = 3)
    · rw [if_pos h11]
      refine iff_of_false (by simp) (fun hs => ?_)
      rcases hs.2.2.2.2.2.2.2.2.1 with hb | hb
      · exact h7 hb.1
      · exact h11 hb.2.2.1
    rw [if_neg h11]
    by_cases h12 : (cfg.y (beBytesToNat k.key.tail)).isNone
    · rw [if_pos h12]
      refine iff_of_false (by simp) (fun hs => ?_)
      rcases hs.2.2.2.2.2.2.2.2.1 with hb | hb
      · exact h7 hb.1
      · rw [Option.isNone_iff_eq_none] at h12
        rw [h12] at hb
        exact Bool.noConfusion hb.2.2.2
    rw [if_neg h12]
    rw [zero_depth_checks_ok_iff]
    constructor
    · intro hz
      obtain ⟨hd0, hd1⟩ := not_not.mp h2
      obtain ⟨hi0, hi1⟩ := not_not.mp h4
      have hy : (cfg.y (beBytesToNat k.key.tail)).isSome := by
        cases hy2 : cfg.y (beBytesToNat k.key.tail) with
        | none => exact absurd (by rw [hy2]; rfl) h12
        | some v => rfl
      exact ⟨not_not.mp h1, hd0, hd1, not_not.mp h3, hi0, hi1, not_not.mp h5,
        not_not.mp h6, Or.inr ⟨h7, h10, not_not.mp h11, hy⟩, hz⟩
    · intro hs
      exact hs.2.2.2.2.2.2.2.2.2
  rw [if_neg h10]
  refine iff_of_false (by simp) (fun hs => ?_)
  rcases hs.2.2.2.2.2.2.2.2.1 with hb | hb
  · exact h7 hb.1
  · exact h10 hb.2.1

theorem take_append_exact {A : Type} (l1 l2 : List A) (n : Nat)
    (h : l1.length = n) : (l1 ++ l2).take n = l1 := by
  subst h
  exact List.take_left l1 l2

theorem drop_append_exact {A : Type} (l1 l2 : List A) (n : Nat)
    (h : l1.length = n) : (l1 ++ l2).drop n = l2 := by
  subst h
  exact List.drop_left l1 l2

theorem run_validation_ok {P : Type} (cfg : Config P) (k : BIP32KeyData)
    (h : assert_valid cfg k = .ok ()) (av : Bool) :
    run_validation cfg av k = .ok () := by
  cases av <;> simp [run_validation, h]

theorem run_validation_true {P : Type} (cfg : Config P) (k : BIP32KeyData) :
    run_validation cfg true k = assert_valid cfg k := by
  simp [run_validation]

theorem deserialize_ok {P : Type} (cfg : Config P) (b : Bytes)
    (k' : BIP32KeyData) (h : deserialize cfg b true = .ok k') :
    k' = parse_key_data b ∧ assert_valid cfg (parse_key_data b) = .ok () := by
  unfold deserialize at h
  rw [run_validation_true] at h
  split at h
  · exact Except.noConfusion h
  · next u heq =>
      cases u
      refine ⟨(Except.ok.inj h).symm, ?_⟩
      exact heq

/-- The parse function `parse_key_data` is a left inverse of `serialize_bytes` on keys whose
fields have the exact wire lengths and whose depth and index fit their
big-endian fields. -/
theorem parse_serialize_bytes (k : BIP32KeyData)
    (hv : k.version.length = 4) (hf : k.parent_fingerprint.length = 4)
    (hc : k.chain_code.length = 32) (hk : k.key.length = 33)
    (hd0 : 0 ≤ k.depth) (hd1 : k.depth ≤ 255)
    (hi0 : 0 ≤ k.index) (hi1 : k.index ≤ 0xFFFFFFFF) :
    parse_key_data (serialize_bytes k) = k := by
  obtain ⟨v, d, f, i, c, ky⟩ := k
  simp only at hv hf hc hk hd0 hd1 hi0 hi1
  unfold parse_key_data serialize_bytes
  simp only [List.append_assoc]
  rw [take_append_exact v _ 4 hv, drop_append_exact v _ 4 hv]
  rw [take_append_exact (natToBytesBE 1 d.toNat) _ 1 (natToBytesBE_length 1 _),
    drop_append_exact (natToBytesBE 1 d.toNat) _ 1 (natToBytesBE_length 1 _)]
  rw [take_append_exact f _ 4 hf, drop_append_exact f _ 4 hf]
  rw [take_append_exact (natToBytesBE 4 i.toNat) _ 4 (natToBytesBE_length 4 _),
    drop_append_exact (natToBytesBE 4 i.toNat) _ 4 (natToBytesBE_length 4 _)]
  rw [take_append_exact c _ 32 hc, drop_append_exact c _ 32 hc]
  rw [beBytesToNat_natToBytesBE 1 d.toNat (by omega),
    beBytesToNat_natToBytesBE 4 i.toNat (by omega)]
  rw [List.take_of_length_le (le_of_eq hk)]
  rw [Int.toNat_of_nonneg hd0, Int.toNat_of_nonneg hi0]

/-- The 78-byte serialization of a key with exact field lengths. -/
theorem serialize_bytes_length (k : BIP32KeyData)
    (hv : k.version.length = 4) (hf : k.parent_fingerprint.length = 4)
    (hc : k.chain_code.length = 32) (hk : k.key.length = 33) :
    (serialize_bytes k).length = 78 := by
  simp [serialize_bytes, hv, hf, hc, hk, natToBytesBE_length]

/-- Claim C7: constructor invariants make invalid instances unrepresentable.
Validation (`assert_valid`, run by the checked constructor and by every
decode path with validation enabled) succeeds exactly when the section-3
invariants hold: known version, depth in `[0, 255]`, 4-byte parent
fingerprint, index in `[0, 0xFFFFFFFF]`, 32-byte chain code, 33-byte key
material, a private key starting `0x00` with scalar in `(0, n)`, a public
key starting `0x02`/`0x03` with a decompressible x-coordinate, and depth 0
forcing a zero fingerprint and zero index; every key produced by a
validating decode satisfies them all. -/
theorem constructor_invariants {P : Type} (cfg : Config P) (k : BIP32KeyData) :
    (mk_checked cfg k = .ok k ↔ SpecValidKey cfg k)
    ∧ (∀ k', mk_checked cfg k = .ok k' → SpecValidKey cfg k')
    ∧ (∀ b k', deserialize cfg b true = .ok k' → SpecValidKey cfg k')
    ∧ (∀ s k', b58decode_key cfg s true = .ok k' → SpecValidKey cfg k') := by
  have hmk : ∀ k', mk_checked cfg k = .ok k' →
      k' = k ∧ assert_valid cfg k = .ok () := by
    intro k' h
    unfold mk_checked at h
    split at h
    · exact Except.noConfusion h
    · next u heq =>
        cases u
        refine ⟨(Except.ok.inj h).symm, ?_⟩
        exact heq
  refine ⟨?_, ?_, ?_, ?_⟩
  · constructor
    · intro h
      exact (assert_valid_ok_iff cfg k).mp (hmk k h).2
    · intro hs
      unfold mk_checked
      rw [(assert_valid_ok_iff cfg k).mpr hs]
  · intro k' h
    obtain ⟨hk', hva⟩ := hmk k' h
    subst hk'
    exact (assert_valid_ok_iff cfg _).mp hva
  · intro b k' h
    obtain ⟨hk', hva⟩ := deserialize_ok cfg b k' h
    subst hk'
    exact (assert_valid_ok_iff cfg _).mp hva
  · intro s k' h
    unfold b58decode_key at h
    split at h
    · exact Except.noConfusion h
    · split_ifs at h
      obtain ⟨hk', hva⟩ := deserialize_ok cfg _ k' h
      subst hk'
      exact (assert_valid_ok_iff cfg _).mp hva

theorem constructor_invariants_witness :
    SpecValidKey cfgW keyW ∧ mk_checked cfgW keyW = .ok keyW :=
  ⟨by unfold SpecValidKey; decide,
   ((constructor_invariants cfgW keyW).1).mpr (by unfold SpecValidKey; decide)⟩

/-- Claim C3: serialization round trip.  For a key satisfying the section-3
invariants (`assert_valid` succeeds) the 78-byte serialization deserializes
back to the same key, and — given that the external Base58Check codec
round-trips — the Base58Check encoding decodes back to the same key. -/
theorem serialization_round_trip {P : Type} (cfg : Config P)
    (k : BIP32KeyData) (hval : assert_valid cfg k = .ok ())
    (hb58 : ∀ x, cfg.b58decode (cfg.b58encode x) = .ok x) :
    serialize cfg k true = .ok (serialize_bytes k)
    ∧ deserialize cfg (serialize_bytes k) true = .ok k
    ∧ b58encode_key cfg k true = .ok (cfg.b58encode (serialize_bytes k))
    ∧ b58decode_key cfg (cfg.b58encode (serialize_bytes k)) true = .ok k := by
  have hs := (assert_valid_ok_iff cfg k).mp hval
  obtain ⟨h1, hd0, hd1, h4, hi0, hi1, h7, h8, hb, hz⟩ := hs
  have hparse : parse_key_data (serialize_bytes k) = k :=
    parse_serialize_bytes k h1 h4 h7 h8 hd0 hd1 hi0 hi1
  have hser : serialize cfg k true = .ok (serialize_bytes k) := by
    unfold serialize
    rw [run_validation_true, hval]
  have hdes : deserialize cfg (serialize_bytes k) true = .ok k := by
    unfold deserialize
    rw [run_validation_true, hparse, hval]
  refine ⟨hser, hdes, ?_, ?_⟩
  · unfold b58encode_key
    rw [hser]
  · unfold b58decode_key
    rw [hb58 (serialize_bytes k)]
    have hcond : ¬ (true = true ∧
        (serialize_bytes k).length ≠ _EXPECTED_DECODED_LENGHT) := by
      intro hcon
      exact hcon.2 (serialize_bytes_length k h1 h4 h7 h8)
    show (if true = true ∧ (serialize_bytes k).length ≠ _EXPECTED_DECODED_LENGHT
        then (Except.error BErr.invalidDecodedLength : Except BErr BIP32KeyData)
        else deserialize cfg (serialize_bytes k) true) = Except.ok k
    rw [if_neg hcond]
    exact hdes

theorem serialization_round_trip_witness :
    assert_valid cfgW keyW = .ok ()
    ∧ deserialize cfgW (serialize_bytes keyW) true = .ok keyW
    ∧ b58decode_key cfgW (cfgW.b58encode (serialize_bytes keyW)) true = .ok keyW :=
  ⟨by decide,
   (serialization_round_trip cfgW keyW (by decide) (fun x => rfl)).2.1,
   (serialization_round_trip cfgW keyW (by decide) (fun x => rfl)).2.2.2⟩

/-- Claim C10: `deserialize` does not reject over-long input — on a byte
string of length at least 78 whose 78-byte prefix parses to a valid key, it
succeeds with exactly that key, silently ignoring the trailing bytes; only
the Base58Check path (`b58decode`) enforces the exact 78-byte decoded
length. -/
theorem deserialize_ignores_trailing {P : Type} (cfg : Config P) (b : Bytes)
    (k : BIP32KeyData) (h78 : 78 ≤ b.length)
    (hpre : deserialize cfg (b.take 78) true = .ok k) :
    deserialize cfg b true = .ok k
    ∧ (∀ s d, cfg.b58decode s = .ok d → d.length ≠ 78 →
        b58decode_key cfg s true = .error .invalidDecodedLength) := by
  constructor
  · rw [deserialize_take_78 cfg b true]
    exact hpre
  · intro s d hs hd
    unfold b58decode_key
    rw [hs]
    simp only [_EXPECTED_DECODED_LENGHT]
    rw [if_pos ⟨trivial, hd⟩]

theorem deserialize_ignores_trailing_witness :
    78 ≤ (serialize_bytes keyW ++ [9, 9, 9]).length ∧
    deserialize cfgW (serialize_bytes keyW ++ [9, 9, 9]) true = .ok keyW :=
  ⟨by decide,
   (deserialize_ignores_trailing cfgW (serialize_bytes keyW ++ [9, 9, 9]) keyW
      (by decide) (by decide)).1⟩

/-- Claim C4: the crack preconditions fail distinctly, in the source's check
order: a parent whose key byte 0 is not `0x02`/`0x03` gives the
not-a-public-key error; then a child whose key byte 0 is not `0x00` gives
the not-a-private-key error; then a depth mismatch and a parent-fingerprint
mismatch give the two parent-child-mismatch errors (the source's "not a
parent's child" messages); then a hardened child gives the hardened-child
error — and a hardened child is never cracked at all. -/
theorem crack_precondition_failures {P : Type} (cfg : Config P)
    (p c : BIP32KeyData) :
    (¬ (p.key.headD 0 = 2 ∨ p.key.headD 0 = 3) →
      crack_prv_key cfg p c = .error .notAPublicKey)
    ∧ ((p.key.headD 0 = 2 ∨ p.key.headD 0 = 3) → c.key.headD 0 ≠ 0 →
      crack_prv_key cfg p c = .error .notAPrivateKey)
    ∧ ((p.key.headD 0 = 2 ∨ p.key.headD 0 = 3) → c.key.headD 0 = 0 →
      c.depth ≠ p.depth + 1 → crack_prv_key cfg p c = .error .wrongDepths)
    ∧ ((p.key.headD 0 = 2 ∨ p.key.headD 0 = 3) → c.key.headD 0 = 0 →
      c.depth = p.depth + 1 →
      c.parent_fingerprint ≠ (cfg.hash160 p.key).take 4 →
      crack_prv_key cfg p c = .error .wrongParentFingerprint)
    ∧ ((p.key.headD 0 = 2 ∨ p.key.headD 0 = 3) → c.key.headD 0 = 0 →
      c.depth = p.depth + 1 →
      c.parent_fingerprint = (cfg.hash160 p.key).take 4 →
      0x80000000 ≤ c.index →
      crack_prv_key cfg p c = .error .hardenedChildDerivation)
    ∧ (0x80000000 ≤ c.index → ∀ r, crack_prv_key cfg p c ≠ .ok r) := by
  refine ⟨?_, ?_, ?_, ?_, ?_, ?_⟩
  · intro h1
    unfold crack_prv_key
    rw [if_pos h1]
  · intro h1 h2
    unfold crack_prv_key
    rw [if_neg (not_not_intro h1), if_pos h2]
  · intro h1 h2 h3
    unfold crack_prv_key
    rw [if_neg (not_not_intro h1), if_neg (not_not_intro h2), if_pos h3]
  · intro h1 h2 h3 h4
    unfold crack_prv_key
    rw [if_neg (not_not_intro h1), if_neg (not_not_intro h2),
      if_neg (not_not_intro h3), if_pos h4]
  · intro h1 h2 h3 h4 h5
    unfold crack_prv_key
    rw [if_neg (not_not_intro h1), if_neg (not_not_intro h2),
      if_neg (not_not_intro h3), if_neg (not_not_intro h4), if_pos h5]
  · intro hi r hok
    unfold crack_prv_key at hok
    split_ifs at hok

/-- A child with a hardened index is rejected by `crack_prv_key` with the
hardened-child error even when every other precondition holds. -/
theorem crack_precondition_failures_witness :
    crack_prv_key cfgW
      { keyW with key := 2 :: natToBytesBE 32 1 }
      { keyW with depth := 1, index := 0x80000000,
                  parent_fingerprint := [0, 0, 0, 0] }
      = .error .hardenedChildDerivation :=
  (crack_precondition_failures cfgW
      { keyW with key := 2 :: natToBytesBE 32 1 }
      { keyW with depth := 1, index := 0x80000000,
                  parent_fingerprint := [0, 0, 0, 0] }).2.2.2.2.1
    (by decide) (by decide) (by decide) (by decide) (by decide)

/-- Claim C9: root key from seed.  `_rootxprv_from_seed` fails with the
too-few-bits error when the seed is under 128 bits and the too-many-bits
error when it is over 512 bits; with a well-formed 4-byte version tag that
is not a known private version it fails with the unknown-version error; and
otherwise (the HMAC left half being a valid scalar, as it is for every
real-world seed) it returns a depth-0 key with zero parent fingerprint,
zero index, key material `0x00 ‖ HMAC-SHA512("Bitcoin seed", seed)[:32]`
and chain code `HMAC-SHA512("Bitcoin seed", seed)[32:]`. -/
theorem root_key_from_seed {P : Type} (cfg : Config P) (seed version : Bytes) :
    (seed.length * 8 < 128 →
      _rootxprv_from_seed cfg seed version = .error .seedTooFewBits)
    ∧ (128 ≤ seed.length * 8 → 512 < seed.length * 8 →
      _rootxprv_from_seed cfg seed version = .error .seedTooManyBits)
    ∧ (128 ≤ seed.length * 8 → seed.length * 8 ≤ 512 → version.length = 4 →
      version ∉ cfg.xprv_versions_all →
      _rootxprv_from_seed cfg seed version = .error .unknownPrvKeyVersion)
    ∧ (128 ≤ seed.length * 8 → seed.length * 8 ≤ 512 → version.length = 4 →
      version ∈ cfg.xprv_versions_all →
      (cfg.hmac_sha512 bitcoin_seed seed).length = 64 →
      0 < beBytesToNat ((cfg.hmac_sha512 bitcoin_seed seed).take 32) →
      beBytesToNat ((cfg.hmac_sha512 bitcoin_seed seed).take 32) < cfg.n →
      _rootxprv_from_seed cfg seed version =
        .ok { version := version, depth := 0,
              parent_fingerprint := [0, 0, 0, 0], index := 0,
              chain_code := (cfg.hmac_sha512 bitcoin_seed seed).drop 32,
              key := 0 :: (cfg.hmac_sha512 bitcoin_seed seed).take 32 }) := by
  refine ⟨?_, ?_, ?_, ?_⟩
  · intro h1
    unfold _rootxprv_from_seed
    rw [if_pos h1]
  · intro h1 h2
    unfold _rootxprv_from_seed
    rw [if_neg (by omega), if_pos h2]
  · intro h1 h2 hv hmem
    unfold _rootxprv_from_seed
    rw [if_neg (by omega), if_neg (by omega), if_neg (by omega), if_pos hmem]
  · intro h1 h2 hv hmem hm64 hq0 hq1
    unfold _rootxprv_from_seed
    rw [if_neg (by omega), if_neg (by omega), if_neg (by omega),
      if_neg (not_not_intro hmem)]
    unfold mk_checked
    rw [(assert_valid_ok_iff cfg _).mpr ?_]
    refine ⟨hv, by norm_num, by norm_num, rfl, by norm_num, by norm_num, ?_, ?_,
      Or.inl ⟨hmem, rfl, ?_, ?_⟩, fun _ => ⟨rfl, rfl⟩⟩
    · simp [hm64]
    · simp [List.length_take, hm64]
    · show 0 < beBytesToNat (List.tail (0 :: _))
      simpa using hq0
    · show beBytesToNat (List.tail (0 :: _)) < cfg.n
      simpa using hq1

theorem root_key_from_seed_witness :
    _rootxprv_from_seed cfgW (List.replicate 16 9) [0, 0, 0, 0] =
      .ok { version := [0, 0, 0, 0], depth := 0,
            parent_fingerprint := [0, 0, 0, 0], index := 0,
            chain_code :=
              (cfgW.hmac_sha512 bitcoin_seed (List.replicate 16 9)).drop 32,
            key :=
              0 :: (cfgW.hmac_sha512 bitcoin_seed (List.replicate 16 9)).take 32 } :=
  (root_key_from_seed cfgW (List.replicate 16 9) [0, 0, 0, 0]).2.2.2
    (by decide) (by decide) (by decide) (by decide) (by decide) (by decide)
    (by decide)

/-- The digest a private-branch CKD step computes (hardened steps feed the
private key material, normal steps the compressed public point). -/
def ckd_prv_hmac {P : Type} (cfg : Config P) (s : _ExtendedBIP32KeyData P)
    (i : Nat) : Bytes :=
  if 0x80000000 ≤ i then
    cfg.hmac_sha512 s.chain_code (s.key ++ natToBytesBE 4 i)
  else
    cfg.hmac_sha512 s.chain_code
      (cfg.bytes_from_point (cfg.mult s.q) ++ natToBytesBE 4 i)

theorem __ckd_prv_ok {P : Type} (cfg : Config P) (s : _ExtendedBIP32KeyData P)
    (i : Nat) (hk : s.key.headD 0 = 0) :
    __ckd cfg s i = .ok
      { version := s.version, depth := s.depth + 1,
        parent_fingerprint :=
          (cfg.hash160 (cfg.bytes_from_point (cfg.mult s.q))).take 4,
        index := (i : Int),
        chain_code := (ckd_prv_hmac cfg s i).drop 32,
        key := 0 :: natToBytesBE 32
          ((s.q + beBytesToNat ((ckd_prv_hmac cfg s i).take 32)) % cfg.n),
        q := (s.q + beBytesToNat ((ckd_prv_hmac cfg s i).take 32)) % cfg.n,
        Q := cfg.INF } := by
  unfold __ckd ckd_prv_hmac
  rw [if_pos hk]

theorem __ckd_depth_index {P : Type} (cfg : Config P)
    (s : _ExtendedBIP32KeyData P) (i : Nat) (r : _ExtendedBIP32KeyData P)
    (h : __ckd cfg s i = .ok r) :
    r.depth = s.depth + 1 ∧ r.index = (i : Int) := by
  unfold __ckd at h
  split_ifs at h <;>
    · obtain rfl := Except.ok.inj h
      exact ⟨rfl, rfl⟩

theorem foldlM_ckd_depth_index {P : Type} (cfg : Config P) (l : List Nat)
    (s r : _ExtendedBIP32KeyData P) (h : l.foldlM (__ckd cfg) s = .ok r) :
    r.depth = s.depth + l.length ∧
      ∀ hne : l ≠ [], r.index = (l.getLast hne : Int) := by
  induction l generalizing s with
  | nil =>
    obtain rfl : s = r := Except.ok.inj h
    exact ⟨by simp, fun hne => absurd rfl hne⟩
  | cons a t ih =>
    rw [List.foldlM_cons] at h
    cases hstep : __ckd cfg s a with
    | error e =>
      rw [hstep] at h
      exact Except.noConfusion h
    | ok s1 =>
      rw [hstep] at h
      replace h : t.foldlM (__ckd cfg) s1 = .ok r := h
      obtain ⟨hd1, hi1⟩ := __ckd_depth_index cfg s a s1 hstep
      obtain ⟨hd, hi⟩ := ih s1 h
      constructor
      · rw [hd, hd1]
        simp only [List.length_cons]
        push_cast
        ring
      · intro hne
        by_cases ht : t = []
        · subst ht
          obtain rfl : s1 = r := Except.ok.inj h
          rw [hi1]
          rfl
        · rw [hi ht]
          congr 1
          exact (List.getLast_cons ht).symm

theorem foldlM_ckd_prv {P : Type} (cfg : Config P) (l : List Nat)
    (s : _ExtendedBIP32KeyData P) (hk : s.key.headD 0 = 0) (hn : 0 < cfg.n) :
    ∃ r, l.foldlM (__ckd cfg) s = .ok r ∧ r.key.headD 0 = 0 ∧
      (l = [] → r = s) ∧
      (l ≠ [] → r.key = 0 :: natToBytesBE 32 r.q ∧ r.q < cfg.n ∧ r.Q = cfg.INF) := by
  induction l generalizing s with
  | nil => exact ⟨s, rfl, hk, fun _ => rfl, fun hne => absurd rfl hne⟩
  | cons a t ih =>
    have hstep := __ckd_prv_ok cfg s a hk
    set s1 : _ExtendedBIP32KeyData P :=
      { version := s.version, depth := s.depth + 1,
        parent_fingerprint :=
          (cfg.hash160 (cfg.bytes_from_point (cfg.mult s.q))).take 4,
        index := (a : Int),
        chain_code := (ckd_prv_hmac cfg s a).drop 32,
        key := 0 :: natToBytesBE 32
          ((s.q + beBytesToNat ((ckd_prv_hmac cfg s a).take 32)) % cfg.n),
        q := (s.q + beBytesToNat ((ckd_prv_hmac cfg s a).take 32)) % cfg.n,
        Q := cfg.INF } with hs1
    obtain ⟨r, hr, hrk, hrnil, hrcons⟩ := ih s1 rfl
    refine ⟨r, ?_, hrk, fun hcon => absurd hcon (List.cons_ne_nil a t), fun _ => ?_⟩
    · rw [List.foldlM_cons, hstep]
      exact hr
    · by_cases ht : t = []
      · subst ht
        rw [hrnil rfl, hs1]
        exact ⟨rfl, Nat.mod_lt _ hn, rfl⟩
      · exact hrcons ht

/-- Claim C6: depth monotonicity and overflow.  When the start depth plus
the path length exceeds 255, `_derive` fails with the depth-overflow error
before any derivation step; every successful derivation has final depth
equal to start depth plus path length, and final index equal to the last
path index; and on a private key with no overflow the derivation always
succeeds. -/
theorem depth_monotonicity_overflow {P : Type} (cfg : Config P)
    (k : BIP32KeyData) (l : List Nat) :
    (255 < k.depth + l.length → _derive cfg k l = .error .finalDepthGreaterThan255)
    ∧ (∀ r, _derive cfg k l = .ok r →
        r.depth = k.depth + l.length ∧
          ∀ hne : l ≠ [], r.index = (l.getLast hne : Int))
    ∧ (k.key.headD 0 = 0 → k.depth + l.length ≤ 255 → 0 < cfg.n →
        ∃ r, _derive cfg k l = .ok r) := by
  refine ⟨?_, ?_, ?_⟩
  · intro h1
    unfold _derive
    rw [if_pos h1]
  · intro r h
    unfold _derive at h
    split_ifs at h
    split at h
    · exact Except.noConfusion h
    · next s heq =>
        obtain rfl : s.toBIP32KeyData = r := Except.ok.inj h
        obtain ⟨hd, hi⟩ := foldlM_ckd_depth_index cfg l (init_state cfg k) s heq
        exact ⟨hd, hi⟩
  · intro hk hd hn
    unfold _derive
    rw [if_neg (by omega)]
    obtain ⟨r, hr, -, -, -⟩ := foldlM_ckd_prv cfg l (init_state cfg k) hk hn
    rw [hr]
    exact ⟨r.toBIP32KeyData, rfl⟩

theorem depth_monotonicity_overflow_witness :
    _derive cfgW { keyW with depth := 254 } [1, 2] =
      .error .finalDepthGreaterThan255
    ∧ (∃ r, _derive cfgW keyW [1, 2] = .ok r ∧ r.depth = 2 ∧ r.index = 2) := by
  constructor
  · exact (depth_monotonicity_overflow cfgW { keyW with depth := 254 } [1, 2]).1
      (by decide)
  · obtain ⟨r, hr⟩ :=
      (depth_monotonicity_overflow cfgW keyW [1, 2]).2.2 (by decide) (by decide)
        (by decide)
    obtain ⟨hd, hi⟩ := (depth_monotonicity_overflow cfgW keyW [1, 2]).2.1 r hr
    refine ⟨r, hr, ?_, ?_⟩
    · rw [hd]
      rfl
    · rw [hi (by decide)]
      rfl

/-- Rebuilding the working state from the key data a private derivation
produced gives back the same working state. -/
theorem init_state_toBIP32KeyData {P : Type} (cfg : Config P)
    (r : _ExtendedBIP32KeyData P) (hkey : r.key = 0 :: natToBytesBE 32 r.q)
    (hq : r.q < 2 ^ 256) (hQ : r.Q = cfg.INF) :
    init_state cfg r.toBIP32KeyData = r := by
  have hq' : r.q < 256 ^ 32 := by
    have h2 : (256 : Nat) ^ 32 = 2 ^ 256 := by norm_num
    rw [h2]
    exact hq
  obtain ⟨⟨rv, rd, rf, ri, rc, rk⟩, rq, rQ⟩ := r
  dsimp only at hkey hQ hq'
  subst hkey
  subst hQ
  unfold init_state
  simp [beBytesToNat_natToBytesBE 32 rq hq']

/-- Claim C5: path composition.  On a private extended key, deriving along a
concatenated path equals deriving sequentially along its two pieces,
whenever the combined depth stays within 255 (the CKD transition is applied
once per index, in path order). -/
theorem path_composition {P : Type} (cfg : Config P) (k : BIP32KeyData)
    (p1 p2 : List Nat) (hk : k.key.headD 0 = 0) (hn0 : 0 < cfg.n)
    (hn1 : cfg.n < 2 ^ 256)
    (hd : k.depth + p1.length + p2.length ≤ 255) :
    (_derive cfg k p1).bind (fun k1 => _derive cfg k1 p2) =
      _derive cfg k (p1 ++ p2) := by
  have h1 : ¬ (255 : Int) < k.depth + p1.length := by omega
  obtain ⟨r1, hr1, hr1k, hr1nil, hr1cons⟩ :=
    foldlM_ckd_prv cfg p1 (init_state cfg k) hk hn0
  obtain ⟨hr1d, -⟩ := foldlM_ckd_depth_index cfg p1 (init_state cfg k) r1 hr1
  have hinitd : (init_state cfg k).depth = k.depth := rfl
  have hinit : init_state cfg r1.toBIP32KeyData = r1 := by
    by_cases hp1 : p1 = []
    · rw [hr1nil hp1]
      rfl
    · obtain ⟨hkey, hq, hQ⟩ := hr1cons hp1
      exact init_state_toBIP32KeyData cfg r1 hkey (lt_trans hq hn1) hQ
  have hL1 : _derive cfg k p1 = .ok r1.toBIP32KeyData := by
    unfold _derive
    rw [if_neg h1, hr1]
  have hL2 : _derive cfg r1.toBIP32KeyData p2 =
      (match p2.foldlM (__ckd cfg) r1 with
       | .error e => .error e
       | .ok s => .ok s.toBIP32KeyData) := by
    unfold _derive
    have hd2 : ¬ (255 : Int) < r1.toBIP32KeyData.depth + p2.length := by
      have : r1.depth = k.depth + p1.length := by
        rw [hr1d, hinitd]
      show ¬ (255 : Int) < r1.depth + p2.length
      omega
    rw [if_neg hd2, hinit]
  have hR : _derive cfg k (p1 ++ p2) =
      (match p2.foldlM (__ckd cfg) r1 with
       | .error e => .error e
       | .ok s => .ok s.toBIP32KeyData) := by
    unfold _derive
    have hdc : ¬ (255 : Int) < k.depth + (p1 ++ p2).length := by
      rw [List.length_append]
      push_cast
      omega
    rw [if_neg hdc, List.foldlM_append, hr1]
    rfl
  rw [hL1]
  show _derive cfg r1.toBIP32KeyData p2 = _derive cfg k (p1 ++ p2)
  rw [hL2, hR]

theorem path_composition_witness :
    (_derive cfgW keyW [0x80000000]).bind (fun k1 => _derive cfgW k1 [1]) =
      _derive cfgW keyW ([0x80000000] ++ [1]) :=
  path_composition cfgW keyW [0x80000000] [1] (by decide) (by decide)
    (by decide) (by decide)

/-- The digest a one-step derivation from key data `k` computes on the
private branch. -/
def derive1_prv_hmac {P : Type} (cfg : Config P) (k : BIP32KeyData)
    (i : Nat) : Bytes :=
  if 0x80000000 ≤ i then
    cfg.hmac_sha512 k.chain_code (k.key ++ natToBytesBE 4 i)
  else
    cfg.hmac_sha512 k.chain_code
      (cfg.bytes_from_point (cfg.mult (beBytesToNat k.key.tail))
        ++ natToBytesBE 4 i)

theorem init_state_q {P : Type} (cfg : Config P) (k : BIP32KeyData)
    (hk : k.key.headD 0 = 0) :
    (init_state cfg k).q = beBytesToNat k.key.tail := by
  unfold init_state
  dsimp only
  rw [if_pos hk]

theorem init_state_Q_pub {P : Type} (cfg : Config P) (k : BIP32KeyData)
    (hk : ¬ k.key.headD 0 = 0) :
    (init_state cfg k).Q = cfg.point_from_octets k.key := by
  unfold init_state
  dsimp only
  rw [if_neg hk]

theorem _derive_single_prv {P : Type} (cfg : Config P) (k : BIP32KeyData)
    (i : Nat) (hk : k.key.headD 0 = 0) (hdep : ¬ (255 : Int) < k.depth + 1) :
    _derive cfg k [i] = .ok
      { version := k.version, depth := k.depth + 1,
        parent_fingerprint :=
          (cfg.hash160 (cfg.bytes_from_point
            (cfg.mult (beBytesToNat k.key.tail)))).take 4,
        index := (i : Int),
        chain_code := (derive1_prv_hmac cfg k i).drop 32,
        key := 0 :: natToBytesBE 32
          ((beBytesToNat k.key.tail
            + beBytesToNat ((derive1_prv_hmac cfg k i).take 32)) % cfg.n) } := by
  unfold _derive
  rw [if_neg (by simp only [List.length_singleton]; push_cast at hdep ⊢; omega)]
  rw [List.foldlM_cons]
  rw [__ckd_prv_ok cfg (init_state cfg k) i hk]
  rw [init_state_q cfg k hk]
  show Except.ok _ = Except.ok _
  unfold ckd_prv_hmac derive1_prv_hmac
  rw [init_state_q cfg k hk]
  rfl

theorem _derive_single_pub {P : Type} (cfg : Config P) (k : BIP32KeyData)
    (i : Nat) (hk : ¬ k.key.headD 0 = 0) (hdep : ¬ (255 : Int) < k.depth + 1)
    (hi : ¬ 0x80000000 ≤ i) :
    _derive cfg k [i] = .ok
      { version := k.version, depth := k.depth + 1,
        parent_fingerprint := (cfg.hash160 k.key).take 4,
        index := (i : Int),
        chain_code :=
          (cfg.hmac_sha512 k.chain_code (k.key ++ natToBytesBE 4 i)).drop 32,
        key := cfg.bytes_from_point (cfg.add (cfg.point_from_octets k.key)
          (cfg.mult (beBytesToNat
            ((cfg.hmac_sha512 k.chain_code
              (k.key ++ natToBytesBE 4 i)).take 32)))) } := by
  unfold _derive
  rw [if_neg (by simp only [List.length_singleton]; push_cast at hdep ⊢; omega)]
  rw [List.foldlM_cons]
  have hstep : __ckd cfg (init_state cfg k) i = .ok
      { version := k.version, depth := k.depth + 1,
        parent_fingerprint := (cfg.hash160 k.key).take 4,
        index := (i : Int),
        chain_code :=
          (cfg.hmac_sha512 k.chain_code (k.key ++ natToBytesBE 4 i)).drop 32,
        key := cfg.bytes_from_point (cfg.add (cfg.point_from_octets k.key)
          (cfg.mult (beBytesToNat
            ((cfg.hmac_sha512 k.chain_code
              (k.key ++ natToBytesBE 4 i)).take 32)))),
        q := 0,
        Q := cfg.add (cfg.point_from_octets k.key)
          (cfg.mult (beBytesToNat
            ((cfg.hmac_sha512 k.chain_code
              (k.key ++ natToBytesBE 4 i)).take 32))) } := by
    unfold __ckd
    dsimp only [init_state]
    rw [if_neg hk, if_neg hi, if_neg hk]
  rw [hstep]
  rfl

theorem _derive_single_pub_hardened {P : Type} (cfg : Config P)
    (k : BIP32KeyData) (i : Nat) (hk : ¬ k.key.headD 0 = 0)
    (hdep : ¬ (255 : Int) < k.depth + 1) (hi : 0x80000000 ≤ i) :
    _derive cfg k [i] = .error .hardenedDerivationFromPublicKey := by
  unfold _derive
  rw [if_neg (by simp only [List.length_singleton]; push_cast at hdep ⊢; omega)]
  rw [List.foldlM_cons]
  have hstep : __ckd cfg (init_state cfg k) i =
      .error .hardenedDerivationFromPublicKey := by
    unfold __ckd
    dsimp only [init_state]
    rw [if_neg hk, if_pos hi]
  rw [hstep]
  rfl

theorem except_ok_bind {E A B : Type} (a : A) (f : A → Except E B) :
    (Except.ok a).bind f = f a := rfl

theorem _xpub_from_xprv_ok0 {P : Type} (cfg : Config P) (ver : Bytes)
    (dep : Int) (pf : Bytes) (idx : Int) (cc : Bytes) (tl : Bytes)
    (j : Nat) (v : Bytes)
    (hj : idxOf? ver cfg.xprv_versions_all = some j)
    (hv : cfg.xpub_versions_all[j]? = some v) :
    _xpub_from_xprv cfg ⟨ver, dep, pf, idx, cc, 0 :: tl⟩ =
      .ok ⟨v, dep, pf, idx, cc,
        cfg.bytes_from_point (cfg.mult (beBytesToNat tl))⟩ :=
  _xpub_from_xprv_ok cfg ⟨ver, dep, pf, idx, cc, 0 :: tl⟩ rfl j v hj hv

/-- Claim C1: neutering commutes with normal derivation but not hardened.
For a private extended key (version at position `jx` of the private table,
public counterpart `vpub`, depth below 255): neutering the normal child
equals deriving the same normal index from the neutered parent; and
deriving any hardened index from the neutered (public) parent fails with
the hardened-from-public-key error. -/
theorem neutering_derive_commute {P : Type} (cfg : Config P) (hwf : cfg.WF)
    (k : BIP32KeyData) (i j jx : Nat) (vpub : Bytes)
    (hk : k.key.headD 0 = 0)
    (hidx : idxOf? k.version cfg.xprv_versions_all = some jx)
    (hvpub : cfg.xpub_versions_all[jx]? = some vpub)
    (hdep : k.depth + 1 ≤ 255)
    (hi : i < 0x80000000) (hj : 0x80000000 ≤ j) :
    (_derive cfg k [i]).bind (fun c => _xpub_from_xprv cfg c) =
      (_xpub_from_xprv cfg k).bind (fun p => _derive cfg p [i])
    ∧ (_xpub_from_xprv cfg k).bind (fun p => _derive cfg p [j]) =
      .error .hardenedDerivationFromPublicKey := by
  have hdep' : ¬ (255 : Int) < k.depth + 1 := by omega
  have hinorm : ¬ (0x80000000 : Nat) ≤ i := by omega
  have hnpos : 0 < cfg.n := by
    have := hwf.one_lt_n
    omega
  have hC : _derive cfg k [i] = .ok
      { version := k.version, depth := k.depth + 1,
        parent_fingerprint := (cfg.hash160 (cfg.bytes_from_point
          (cfg.mult (beBytesToNat k.key.tail)))).take 4,
        index := (i : Int),
        chain_code := (cfg.hmac_sha512 k.chain_code
          (cfg.bytes_from_point (cfg.mult (beBytesToNat k.key.tail))
            ++ natToBytesBE 4 i)).drop 32,
        key := 0 :: natToBytesBE 32
          ((beBytesToNat k.key.tail + beBytesToNat
            ((cfg.hmac_sha512 k.chain_code
              (cfg.bytes_from_point (cfg.mult (beBytesToNat k.key.tail))
                ++ natToBytesBE 4 i)).take 32)) % cfg.n) } := by
    rw [_derive_single_prv cfg k i hk hdep']
    unfold derive1_prv_hmac
    rw [if_neg hinorm]
  have hq1lt : (beBytesToNat k.key.tail + beBytesToNat
      ((cfg.hmac_sha512 k.chain_code
        (cfg.bytes_from_point (cfg.mult (beBytesToNat k.key.tail))
          ++ natToBytesBE 4 i)).take 32)) % cfg.n < 256 ^ 32 := by
    have h1 : (beBytesToNat k.key.tail + beBytesToNat
        ((cfg.hmac_sha512 k.chain_code
          (cfg.bytes_from_point (cfg.mult (beBytesToNat k.key.tail))
            ++ natToBytesBE 4 i)).take 32)) % cfg.n < cfg.n :=
      Nat.mod_lt _ hnpos
    have h2 := hwf.n_lt
    have h3 : (256 : Nat) ^ 32 = 2 ^ 256 := by norm_num
    omega
  have hpub0 : ¬ (cfg.bytes_from_point
      (cfg.mult (beBytesToNat k.key.tail))).headD 0 = 0 := by
    rcases hwf.bfp_head (cfg.mult (beBytesToNat k.key.tail)) with h | h <;>
      · rw [h]
        decide
  have hL : (_derive cfg k [i]).bind (fun c => _xpub_from_xprv cfg c) = .ok
      { version := vpub, depth := k.depth + 1,
        parent_fingerprint := (cfg.hash160 (cfg.bytes_from_point
          (cfg.mult (beBytesToNat k.key.tail)))).take 4,
        index := (i : Int),
        chain_code := (cfg.hmac_sha512 k.chain_code
          (cfg.bytes_from_point (cfg.mult (beBytesToNat k.key.tail))
            ++ natToBytesBE 4 i)).drop 32,
        key := cfg.bytes_from_point (cfg.mult
          ((beBytesToNat k.key.tail + beBytesToNat
            ((cfg.hmac_sha512 k.chain_code
              (cfg.bytes_from_point (cfg.mult (beBytesToNat k.key.tail))
                ++ natToBytesBE 4 i)).take 32)) % cfg.n)) } := by
    rw [hC, except_ok_bind]
    rw [_xpub_from_xprv_ok0 cfg k.version (k.depth + 1) _ _ _ _ jx vpub hidx
      hvpub]
    rw [beBytesToNat_natToBytesBE 32 _ hq1lt]
  have hR : (_xpub_from_xprv cfg k).bind (fun p => _derive cfg p [i]) = .ok
      { version := vpub, depth := k.depth + 1,
        parent_fingerprint := (cfg.hash160 (cfg.bytes_from_point
          (cfg.mult (beBytesToNat k.key.tail)))).take 4,
        index := (i : Int),
        chain_code := (cfg.hmac_sha512 k.chain_code
          (cfg.bytes_from_point (cfg.mult (beBytesToNat k.key.tail))
            ++ natToBytesBE 4 i)).drop 32,
        key := cfg.bytes_from_point (cfg.mult
          ((beBytesToNat k.key.tail + beBytesToNat
            ((cfg.hmac_sha512 k.chain_code
              (cfg.bytes_from_point (cfg.mult (beBytesToNat k.key.tail))
                ++ natToBytesBE 4 i)).take 32)) % cfg.n)) } := by
    rw [_xpub_from_xprv_ok cfg k hk jx vpub hidx hvpub, except_ok_bind]
    rw [_derive_single_pub cfg
      ⟨vpub, k.depth, k.parent_fingerprint, k.index, k.chain_code,
        cfg.bytes_from_point (cfg.mult (beBytesToNat k.key.tail))⟩
      i hpub0 hdep' hinorm]
    dsimp only
    rw [hwf.pfo_bfp, hwf.add_mult]
  refine ⟨hL.trans hR.symm, ?_⟩
  rw [_xpub_from_xprv_ok cfg k hk jx vpub hidx hvpub, except_ok_bind]
  exact _derive_single_pub_hardened cfg
    ⟨vpub, k.depth, k.parent_fingerprint, k.index, k.chain_code,
      cfg.bytes_from_point (cfg.mult (beBytesToNat k.key.tail))⟩
    j hpub0 hdep' hj

theorem neutering_derive_commute_witness :
    (_derive cfgW keyW [3]).bind (fun c => _xpub_from_xprv cfgW c) =
      (_xpub_from_xprv cfgW keyW).bind (fun p => _derive cfgW p [3])
    ∧ (_xpub_from_xprv cfgW keyW).bind (fun p => _derive cfgW p [0x80000000]) =
      .error .hardenedDerivationFromPublicKey :=
  neutering_derive_commute cfgW cfgW_wf keyW 3 0x80000000 0 [1, 1, 1, 1]
    (by decide) (by decide) (by decide) (by decide) (by decide) (by decide)

/-- Claim C2: crack recovers the parent exactly.  For a valid private
extended key `k` (depth below 255) and any non-hardened index `i`, feeding
the neutered parent and the derived normal child into `crack_prv_key`
returns `k` itself: the recovered scalar is `(childScalar - int(IL)) mod n`
and every other field of the parent is reproduced (the version is aligned
with the child's private version, which equals the parent's). -/
theorem crack_recovers_parent {P : Type} (cfg : Config P) (hwf : cfg.WF)
    (k : BIP32KeyData) (i jx : Nat) (vpub : Bytes)
    (hk : k.key.headD 0 = 0) (hklen : k.key.length = 33)
    (hqn : beBytesToNat k.key.tail < cfg.n)
    (hidx : idxOf? k.version cfg.xprv_versions_all = some jx)
    (hvpub : cfg.xpub_versions_all[jx]? = some vpub)
    (hdep : k.depth + 1 ≤ 255) (hi : i < 0x80000000) :
    ∃ p c, _xpub_from_xprv cfg k = .ok p ∧ _derive cfg k [i] = .ok c ∧
      crack_prv_key cfg p c = .ok k := by
  have hdep' : ¬ (255 : Int) < k.depth + 1 := by omega
  have hinorm : ¬ (0x80000000 : Nat) ≤ i := by omega
  have hnpos : 0 < cfg.n := by
    have := hwf.one_lt_n
    omega
  obtain ⟨kv, kd, kf, ki, kc, kk⟩ := k
  obtain ⟨tl, hkey, htl⟩ : ∃ tl, kk = 0 :: tl ∧ tl.length = 32 := by
    cases hk2 : kk with
    | nil =>
      rw [hk2] at hklen
      simp at hklen
    | cons h t =>
      rw [hk2] at hklen hk
      simp only [List.length_cons] at hklen
      have hh : h = 0 := by simpa using hk
      exact ⟨t, by rw [hh], by omega⟩
  subst hkey
  simp only [List.tail_cons] at hqn
  have hp := _xpub_from_xprv_ok0 cfg kv kd kf ki kc tl jx vpub hidx hvpub
  have hc : _derive cfg ⟨kv, kd, kf, ki, kc, 0 :: tl⟩ [i] = .ok
      ⟨kv, kd + 1,
        (cfg.hash160 (cfg.bytes_from_point
          (cfg.mult (beBytesToNat tl)))).take 4,
        (i : Int),
        (cfg.hmac_sha512 kc (cfg.bytes_from_point (cfg.mult (beBytesToNat tl))
          ++ natToBytesBE 4 i)).drop 32,
        0 :: natToBytesBE 32 ((beBytesToNat tl + beBytesToNat
          ((cfg.hmac_sha512 kc
            (cfg.bytes_from_point (cfg.mult (beBytesToNat tl))
              ++ natToBytesBE 4 i)).take 32)) % cfg.n)⟩ := by
    have h0 := _derive_single_prv cfg ⟨kv, kd, kf, ki, kc, 0 :: tl⟩ i rfl hdep'
    rw [h0]
    unfold derive1_prv_hmac
    rw [if_neg hinorm]
    rfl
  refine ⟨_, _, hp, hc, ?_⟩
  unfold crack_prv_key
  dsimp only
  rw [if_neg (not_not_intro (hwf.bfp_head (cfg.mult (beBytesToNat tl))))]
  rw [if_neg (not_not_intro (show List.headD
      ((0 : Byte) :: natToBytesBE 32 ((beBytesToNat tl + beBytesToNat
        ((cfg.hmac_sha512 kc (cfg.bytes_from_point (cfg.mult (beBytesToNat tl))
          ++ natToBytesBE 4 i)).take 32)) % cfg.n)) 0 = 0 from rfl))]
  rw [if_neg (not_not_intro (show (kd + 1 : Int) = kd + 1 from rfl))]
  rw [if_neg (not_not_intro (show
    (List.take 4 (cfg.hash160 (cfg.bytes_from_point
      (cfg.mult (beBytesToNat tl)))) : Bytes)
      = List.take 4 (cfg.hash160 (cfg.bytes_from_point
        (cfg.mult (beBytesToNat tl)))) from rfl))]
  rw [if_neg (show ¬ (0x80000000 : Int) ≤ ((i : Nat) : Int) by omega)]
  rw [Int.toNat_natCast i]
  have hq1lt : (beBytesToNat tl + beBytesToNat
      ((cfg.hmac_sha512 kc
        (cfg.bytes_from_point (cfg.mult (beBytesToNat tl))
          ++ natToBytesBE 4 i)).take 32)) % cfg.n < 256 ^ 32 := by
    have h1 : (beBytesToNat tl + beBytesToNat
        ((cfg.hmac_sha512 kc
          (cfg.bytes_from_point (cfg.mult (beBytesToNat tl))
            ++ natToBytesBE 4 i)).take 32)) % cfg.n < cfg.n :=
      Nat.mod_lt _ hnpos
    have h2 := hwf.n_lt
    have h3 : (256 : Nat) ^ 32 = 2 ^ 256 := by norm_num
    omega
  simp only [List.tail_cons]
  rw [beBytesToNat_natToBytesBE 32 _ hq1lt]
  have hpar : ∀ off : Nat,
      (((((beBytesToNat tl + off) % cfg.n : Nat) : Int) - (off : Int))
        % (cfg.n : Int)).toNat = beBytesToNat tl := by
    intro off
    have hcast : (((beBytesToNat tl + off) % cfg.n : Nat) : Int)
        = ((beBytesToNat tl : Int) + off) % (cfg.n : Int) := by
      push_cast
      rfl
    rw [hcast]
    have h1 : ((((beBytesToNat tl : Int) + off) % cfg.n) - off) % cfg.n
        = ((beBytesToNat tl : Int) + off - off) % cfg.n := by
      conv_lhs => rw [Int.sub_emod]
      conv_rhs => rw [Int.sub_emod]
      rw [Int.emod_emod_of_dvd _ dvd_rfl]
    rw [h1]
    have h2 : (beBytesToNat tl : Int) + off - off = (beBytesToNat tl : Int) := by
      ring
    rw [h2]
    rw [Int.emod_eq_of_lt (by positivity) (by exact_mod_cast hqn)]
    simp
  rw [hpar _]
  rw [natToBytesBE_beBytesToNat tl 32 htl]

theorem crack_recovers_parent_witness :
    ∃ p c, _xpub_from_xprv cfgW keyW = .ok p ∧
      _derive cfgW keyW [3] = .ok c ∧ crack_prv_key cfgW p c = .ok keyW :=
  crack_recovers_parent cfgW cfgW_wf keyW 3 0 [1, 1, 1, 1] (by decide)
    (by decide) (by decide) (by decide) (by decide) (by decide) (by decide)

end BIP32
